import Mathlib

/-!
Shallow embedding of the viral-calendar repository's aggregation, import,
and fallback pipeline (src/types.ts, src/services/newsAggregator.ts,
src/services/redditHistorical.ts, src/lib/supabase.ts, src/data/mockData.ts,
src/hooks/useRedditData.ts, src/hooks/useSupabaseData.ts).

JavaScript values are modelled as follows: numbers that hold Reddit scores
and ranks are `Int` / `Nat` (all arithmetic on them in the source is integer
arithmetic well inside the double-precision safe range), `string` is `String`
restricted to the ASCII inputs the pipeline handles, `T | undefined` is
`Option T`, and a date-keyed `Record<string, DayData>` object is an
association list `List (String × DayData)` in insertion order, which matches
JavaScript object key semantics for string keys.  `new Date()` (the clock) is
passed in explicitly as the `today` date string.
-/

/-- ContentType from src/types.ts. -/
inductive ContentType
  | tweet
  | news
  | meme
  | video
  | trend
deriving DecidableEq, Repr

/-- ViralEvent from src/types.ts.  `hashtag?: string` becomes `Option String`;
`postCount` is an integer score. -/
structure ViralEvent where
  id : String
  title : String
  summary : String
  postCount : Int
  hashtag : Option String
  type : ContentType
  trendingRank : Nat
deriving DecidableEq, Repr

/-- DayData from src/types.ts. -/
structure DayData where
  date : String
  events : List ViralEvent
  hasViralContent : Bool
  topHashtag : Option String
deriving DecidableEq, Repr

/-- A JavaScript object keyed by date strings, in insertion order. -/
abbrev DayMap := List (String × DayData)

/-- First-occurrence lookup in a date-keyed object (JS property read). -/
def recLookup (m : DayMap) (k : String) : Option DayData :=
  match m with
  | [] => none
  | (k2, v) :: rest => if k2 = k then some v else recLookup rest k

/-- JS property write: update the key in place when present, else append. -/
def recInsert (m : DayMap) (k : String) (v : DayData) : DayMap :=
  match m with
  | [] => [(k, v)]
  | (k2, v2) :: rest =>
    if k2 = k then (k, v) :: rest else (k2, v2) :: recInsert rest k v

/-- Is `c` kept by the regex class `[a-z0-9]`? -/
def isKeyChar (c : Char) : Bool :=
  (decide ('a' ≤ c) && decide (c ≤ 'z')) || (decide ('0' ≤ c) && decide (c ≤ '9'))

/-- The deduplication key of newsAggregator.removeDuplicates:
`title.toLowerCase().replace(/[^a-z0-9]/g, '').substring(0, 30)`.
`Char.toLower` agrees with JS `toLowerCase` on the ASCII titles involved. -/
def normTitleKey (t : String) : String :=
  String.mk ((((t.toList).map Char.toLower).filter isKeyChar).take 30)

/-- Does the character list start with the given needle? -/
def charsStartWith : List Char → List Char → Bool
  | _, [] => true
  | [], _ :: _ => false
  | c :: cs, d :: ds => c == d && charsStartWith cs ds

/-- Does the character list contain the needle as a contiguous segment? -/
def charsHaveSeg : List Char → List Char → Bool
  | [], needle => needle.isEmpty
  | c :: cs, needle => charsStartWith (c :: cs) needle || charsHaveSeg cs needle

/-- JS `s.includes(sub)` on strings. -/
def strIncludes (s sub : String) : Bool :=
  charsHaveSeg s.toList sub.toList

/-- JS `h?.includes(sub)` for an optional string. -/
def optIncludes (h : Option String) (sub : String) : Bool :=
  match h with
  | none => false
  | some s => strIncludes s sub

/-- The newsOnly filter of NewsAggregator.fetchViralContent:
`e.type === 'news' || e.hashtag?.includes('news') ||
 e.hashtag?.includes('worldnews') || e.hashtag?.includes('technology')`. -/
def isNewsEventAgg (e : ViralEvent) : Bool :=
  e.type == ContentType.news || optIncludes e.hashtag "news" ||
    optIncludes e.hashtag "worldnews" || optIncludes e.hashtag "technology"

/-- Worker of NewsAggregator.removeDuplicates; `seen` is the Set of keys. -/
def removeDupAux (seen : List String) : List ViralEvent → List ViralEvent
  | [] => []
  | e :: rest =>
    let k := normTitleKey e.title
    if seen.contains k then removeDupAux seen rest
    else e :: removeDupAux (k :: seen) rest

/-- NewsAggregator.removeDuplicates: keep the first event for each
normalized-title key. -/
def removeDuplicates (events : List ViralEvent) : List ViralEvent :=
  removeDupAux [] events

/-- Insert `a` into `t` before the first element `b` with `le a b`
(skipping the elements that must stay before `a`). -/
def insertLe (le : α → α → Bool) (a : α) : List α → List α
  | [] => [a]
  | b :: t => if le a b then a :: b :: t else b :: insertLe le a t

/-- Stable insertion sort: the semantics of JS `Array.prototype.sort` with a
consistent comparator (ECMAScript requires the result to be sorted and
stable, which determines it uniquely; `le a b` is "the comparator allows
`a` no later than `b`").  Earlier elements are inserted in front of the
later elements they tie with, so ties keep arrival order. -/
def sortLe (le : α → α → Bool) : List α → List α
  | [] => []
  | x :: xs => insertLe le x (sortLe le xs)

/-- The comparator `(a, b) => b.postCount - a.postCount`: `a` may come no
later than `b` iff `b.postCount ≤ a.postCount`. -/
def lePostDesc (a b : ViralEvent) : Bool :=
  decide (b.postCount ≤ a.postCount)

/-- The comparator `(a, b) => a.trendingRank - b.trendingRank`: ascending
rank order. -/
def leRankAsc (a b : ViralEvent) : Bool :=
  decide (a.trendingRank ≤ b.trendingRank)

/-- JS `arr.sort((a, b) => b.postCount - a.postCount)`: a stable sort
descending by postCount. -/
def sortByPostCountDesc (l : List ViralEvent) : List ViralEvent :=
  sortLe lePostDesc l

/-- JS `sortedEvents.map((e, i) => ({ ...e, trendingRank: i + 1 }))`. -/
def assignRanks (l : List ViralEvent) : List ViralEvent :=
  l.enum.map (fun ie => { ie.2 with trendingRank := ie.1 + 1 })

/-- The pure score/news filtering and dedup pipeline of
NewsAggregator.fetchViralContent, applied to the concatenation of all
source results. -/
def aggPipeline (allEvents : List ViralEvent) (newsOnly : Bool)
    (minScore : Int) : List ViralEvent :=
  let filteredEvents := allEvents.filter (fun e => decide (minScore ≤ e.postCount))
  let filteredEvents2 :=
    if newsOnly then filteredEvents.filter isNewsEventAgg else filteredEvents
  removeDuplicates filteredEvents2

/-- The single DayBucket built by NewsAggregator.fetchViralContent for
`today` from the concatenated source events. -/
def fetchViralContentBucket (allEvents : List ViralEvent) (today : String)
    (newsOnly : Bool) (minScore : Int) (maxResults : Nat) : DayData :=
  let sortedEvents := (sortByPostCountDesc (aggPipeline allEvents newsOnly minScore)).take maxResults
  { date := today
    events := assignRanks sortedEvents
    hasViralContent := decide (0 < sortedEvents.length)
    topHashtag := sortedEvents.head?.bind (fun e => e.hashtag) }

/-- NewsAggregator.fetchViralContent's returned record
`{ [today]: bucket }`. -/
def fetchViralContent (allEvents : List ViralEvent) (today : String)
    (newsOnly : Bool) (minScore : Int) (maxResults : Nat) : DayMap :=
  [(today, fetchViralContentBucket allEvents today newsOnly minScore maxResults)]

/-- createDayData from src/data/mockData.ts: sort ascending by trendingRank
(stable) and derive the summary fields. -/
def createDayData (dateStr : String) (events : List ViralEvent) : DayData :=
  let sortedEvents := sortLe leRankAsc events
  { date := dateStr
    events := sortedEvents
    hasViralContent := decide (0 < events.length)
    topHashtag := sortedEvents.head?.bind (fun e => e.hashtag) }

/-- Reddit `t` timeframes used by the importer. -/
inductive Timeframe
  | hour
  | day
  | week
  | month
  | year
  | all
deriving DecidableEq, Repr

/-- The empty bucket created by RedditHistoricalImporter.processPosts for a
date not yet present in `importedData`. -/
def emptyDayData (dateStr : String) : DayData :=
  { date := dateStr, events := [], hasViralContent := false, topHashtag := none }

/-- JS falsiness of `this.importedData[dateStr].topHashtag`: `undefined` and
the empty string are falsy. -/
def hashtagFalsy : Option String → Bool
  | none => true
  | some s => s.isEmpty

/-- One iteration of the `posts.forEach` body of
RedditHistoricalImporter.processPosts: ensure the bucket for `today`
exists, then append the post unless its id is already present, updating
`hasViralContent` and `topHashtag`. -/
def processPost (today : String) (m : DayMap) (post : ViralEvent) : DayMap :=
  let d := (recLookup m today).getD (emptyDayData today)
  let d2 :=
    if d.events.any (fun e => e.id == post.id) then d
    else
      { d with
        events := d.events ++ [post]
        hasViralContent := true
        topHashtag :=
          if hashtagFalsy d.topHashtag || post.trendingRank == 1 then post.hashtag
          else d.topHashtag }
  recInsert m today d2

/-- RedditHistoricalImporter.processPosts over a batch of filtered posts.
All posts are keyed under `today`, the date current when they are
processed (`new Date().toISOString().split('T')[0]`). -/
def processPosts (today : String) (m : DayMap) (posts : List ViralEvent) : DayMap :=
  posts.foldl (processPost today) m

/-- State threaded through RedditHistoricalImporter.importHistoricalData:
the accumulated map, the `totalProcessed` counter, and the trace of
`getSubredditPosts` calls actually issued (for reasoning about which
subreddits were fetched). -/
structure ImportState where
  acc : DayMap
  total : Nat
  trace : List (String × Timeframe)
deriving Repr

/-- The inner `for (let i = 0; i < subreddits.length; i++)` loop of
importHistoricalData for one timeframe: fetch, filter by `minScore`,
process, bump `totalProcessed`, and break once `totalProcessed >= maxPosts`.
`fetchSub` is the Reddit client oracle (a successful
`redditApi.getSubredditPosts` call for each subreddit/timeframe). -/
def runSubreddits (fetchSub : String → Timeframe → List ViralEvent) (today : String)
    (minScore : Int) (maxPosts : Nat) (tf : Timeframe) :
    List String → ImportState → ImportState
  | [], st => st
  | sub :: rest, st =>
    let posts := fetchSub sub tf
    let filteredPosts := posts.filter (fun p => decide (minScore ≤ p.postCount))
    let st2 : ImportState :=
      { acc := processPosts today st.acc filteredPosts
        total := st.total + filteredPosts.length
        trace := st.trace ++ [(sub, tf)] }
    if maxPosts ≤ st2.total then st2
    else runSubreddits fetchSub today minScore maxPosts tf rest st2

/-- The outer `for (const timeframe of timeframes)` loop of
importHistoricalData, with the `if (totalProcessed >= maxPosts) break`
check at the top of each iteration. -/
def runTimeframes (fetchSub : String → Timeframe → List ViralEvent) (today : String)
    (minScore : Int) (maxPosts : Nat) (subreddits : List String) :
    List Timeframe → ImportState → ImportState
  | [], st => st
  | tf :: rest, st =>
    if maxPosts ≤ st.total then st
    else
      runTimeframes fetchSub today minScore maxPosts subreddits rest
        (runSubreddits fetchSub today minScore maxPosts tf subreddits st)

/-- The main subreddit × timeframe loop of importHistoricalData, started
from an empty accumulator. -/
def importMainLoop (fetchSub : String → Timeframe → List ViralEvent) (today : String)
    (minScore : Int) (maxPosts : Nat) (subreddits : List String)
    (timeframes : List Timeframe) : ImportState :=
  runTimeframes fetchSub today minScore maxPosts subreddits timeframes
    { acc := [], total := 0, trace := [] }

/-- RedditHistoricalImporter.importHistoricalData: the main loop followed by
the broader r/all fetch (`fetchAllTime` models the successful
`redditApi.getPopularPosts` result), filtered with the stricter threshold
`minScore * 2` and merged through the same processPosts procedure. -/
def importHistoricalData (fetchSub : String → Timeframe → List ViralEvent)
    (fetchAllTime : List ViralEvent) (today : String) (minScore : Int)
    (maxPosts : Nat) (subreddits : List String) (timeframes : List Timeframe) :
    ImportState :=
  let st := importMainLoop fetchSub today minScore maxPosts subreddits timeframes
  let filtered := fetchAllTime.filter (fun p => decide (minScore * 2 ≤ p.postCount))
  { st with acc := processPosts today st.acc filtered }

/-- RedditHistoricalImporter.saveToStorage's merge of the new map into the
previously cached one: `{ ...existingData, ...data }`.  JS spread keeps the
existing keys in order (overwritten by `data` where present) and appends
the new keys of `data` in order, which is exactly a fold of in-place
inserts of `data` over `existingData`. -/
def saveToStorage (existingData data : DayMap) : DayMap :=
  data.foldl (fun acc kv => recInsert acc kv.1 kv.2) existingData

/-- A row of the Supabase `viral_events` table as used by
viralEventsApi.getByDateRange: the event payload plus its
`published_date`.  The rows arrive ordered by `viral_score` descending
(server-side order), which the grouping code takes as given. -/
structure EventRow where
  ev : ViralEvent
  published_date : String
deriving DecidableEq, Repr

/-- viralEventsApi.getByDateRange's grouping step: walk the ordered rows
with their global index, and push `{ ...event, trendingRank: index + 1 }`
onto the bucket of the row's date. -/
def getByDateRange (rows : List EventRow) : DayMap :=
  rows.enum.foldl
    (fun acc ie =>
      let d := (recLookup acc ie.2.published_date).getD (emptyDayData ie.2.published_date)
      recInsert acc ie.2.published_date
        { d with
          events := d.events ++ [{ ie.2.ev with trendingRank := ie.1 + 1 }]
          hasViralContent := true })
    []

/-- A row of the Supabase `daily_viral_summaries` table as read by
dailySummariesApi.getAll. -/
structure SummaryRow where
  date : String
  has_viral_content : Bool
  top_hashtag : Option String
deriving DecidableEq, Repr

/-- dailySummariesApi.getAll: the query keeps rows with
`has_viral_content = true` and builds, for each, a bucket with
`events: []` (lazily loaded) and `hasViralContent: true`. -/
def dailySummariesGetAll (rows : List SummaryRow) : DayMap :=
  (rows.filter (fun s => s.has_viral_content)).foldl
    (fun acc s =>
      recInsert acc s.date
        { date := s.date, events := [], hasViralContent := true,
          topHashtag := s.top_hashtag })
    []

/-- getDayData of src/hooks/useRedditData.ts: live cache, then locally
cached historical import, then the static mock table. -/
def getDayData (liveData historicalData mockData : DayMap) (dateStr : String) :
    Option DayData :=
  match recLookup liveData dateStr with
  | some d => some d
  | none =>
    match recLookup historicalData dateStr with
    | some d => some d
    | none => recLookup mockData dateStr

/-- getDayDataSync of src/hooks/useSupabaseData.ts:
`historicalData[dateStr] || localData[dateStr] || getMockDayData(dateStr)`
(a DayData object is always truthy, so `||` is presence-chaining). -/
def getDayDataSync (historicalData localData mockData : DayMap) (dateStr : String) :
    Option DayData :=
  match recLookup historicalData dateStr with
  | some d => some d
  | none =>
    match recLookup localData dateStr with
    | some d => some d
    | none => recLookup mockData dateStr

/-- The spec predicate of claims about `topHashtag`: it equals the hashtag
of a highest-ranked event of the bucket (minimal `trendingRank`, first such
event on ties), and is absent when the bucket has no events. -/
def topHashtagOk (d : DayData) : Bool :=
  match d.events with
  | [] => d.topHashtag == none
  | _ :: _ =>
    d.events.any (fun e =>
      d.topHashtag == e.hashtag &&
        d.events.all (fun e2 => decide (e.trendingRank ≤ e2.trendingRank)))

/-- Is the integer list nonincreasing? -/
def descInts : List Int → Bool
  | [] => true
  | [_] => true
  | a :: b :: rest => decide (b ≤ a) && descInts (b :: rest)

/-- Are the postCounts along the event list nonincreasing? -/
def descByPostCount (l : List ViralEvent) : Bool :=
  descInts (l.map (fun e => e.postCount))

/-- The spec predicate of the ranking claims: the trendingRank values of a
bucket form the contiguous sequence 1..N in list order, and the list is
ordered by descending postCount. -/
def ranksContiguousDesc (d : DayData) : Bool :=
  (d.events.map (fun e => e.trendingRank) == List.range' 1 d.events.length) &&
    descByPostCount d.events

/-- The spec predicate that `hasViralContent` is the derived boolean
"events non-empty". -/
def hasViralContentOk (d : DayData) : Bool :=
  d.hasViralContent == !d.events.isEmpty

/-- The events accumulated under the date `today` in a date-keyed map. -/
def eventsToday (m : DayMap) (today : String) : List ViralEvent :=
  match recLookup m today with
  | some d => d.events
  | none => []

/-- The dedup keys recorded in the `seen` set after removeDupAux walks a
list of events. -/
def seenAfter (seen : List String) : List ViralEvent → List String
  | [] => seen
  | e :: rest =>
    let k := normTitleKey e.title
    if seen.contains k then seenAfter seen rest
    else seenAfter (k :: seen) rest

/-! ### Concrete inputs used in scenario theorems and counterexamples -/

/-- Event `a` of the aggregator deduplication scenario. -/
def evA4 : ViralEvent :=
  { id := "a", title := "Breaking News Today", summary := "", postCount := 500,
    hashtag := some "#x", type := ContentType.news, trendingRank := 1 }

/-- Event `b` of the aggregator deduplication scenario. -/
def evB4 : ViralEvent :=
  { id := "b", title := "breaking news today!!", summary := "", postCount := 300,
    hashtag := some "#y", type := ContentType.news, trendingRank := 1 }

/-- A subreddit fetch oracle for the topHashtag counterexample: subreddit s1
returns three posts ranked 1..3 of which only the rank-3 one passes the 100
score filter, subreddit s2 returns two posts of which only the rank-2 one
passes. -/
def cFetchC1 : String → Timeframe → List ViralEvent := fun s _ =>
  if s = "s1" then
    [{ id := "p1", title := "t1", summary := "", postCount := 50,
       hashtag := some "#p1", type := ContentType.news, trendingRank := 1 },
     { id := "p2", title := "t2", summary := "", postCount := 60,
       hashtag := some "#p2", type := ContentType.news, trendingRank := 2 },
     { id := "p3", title := "t3", summary := "", postCount := 200,
       hashtag := some "#a", type := ContentType.news, trendingRank := 3 }]
  else
    [{ id := "q1", title := "t8", summary := "", postCount := 70,
       hashtag := some "#q1", type := ContentType.news, trendingRank := 1 },
     { id := "q2", title := "t9", summary := "", postCount := 300,
       hashtag := some "#b", type := ContentType.news, trendingRank := 2 }]

/-- Two remote-store rows on consecutive dates, ordered by viral score. -/
def rowsC2 : List EventRow :=
  [{ ev := { id := "e1", title := "u", summary := "", postCount := 500,
             hashtag := none, type := ContentType.news, trendingRank := 1 },
     published_date := "2025-01-01" },
   { ev := { id := "e2", title := "v", summary := "", postCount := 400,
             hashtag := none, type := ContentType.news, trendingRank := 1 },
     published_date := "2025-01-02" }]

/-- The five qualifying posts returned by subreddit x in the maxPosts
overshoot scenario. -/
def xPostsC5 : List ViralEvent :=
  [{ id := "x1", title := "a1", summary := "", postCount := 150, hashtag := none,
     type := ContentType.news, trendingRank := 1 },
   { id := "x2", title := "a2", summary := "", postCount := 151, hashtag := none,
     type := ContentType.news, trendingRank := 2 },
   { id := "x3", title := "a3", summary := "", postCount := 152, hashtag := none,
     type := ContentType.news, trendingRank := 3 },
   { id := "x4", title := "a4", summary := "", postCount := 153, hashtag := none,
     type := ContentType.news, trendingRank := 4 },
   { id := "x5", title := "a5", summary := "", postCount := 154, hashtag := none,
     type := ContentType.news, trendingRank := 5 }]

/-- A concrete fetch oracle for the maxPosts overshoot scenario: subreddit x
returns the five qualifying posts, any other subreddit returns a
high-scoring post that would also qualify. -/
def fetchSubC5 : String → Timeframe → List ViralEvent := fun s _ =>
  if s = "x" then xPostsC5
  else [{ id := "y1", title := "b1", summary := "", postCount := 999, hashtag := none,
          type := ContentType.news, trendingRank := 1 }]

/-- A fetch oracle whose subreddit calls all return nothing. -/
def fetchSubNone : String → Timeframe → List ViralEvent := fun _ _ => []

/-- A single all-time r/all post with score 500, qualifying under the
stricter doubled threshold. -/
def zPostC7 : ViralEvent :=
  { id := "z1", title := "c1", summary := "", postCount := 500, hashtag := none,
    type := ContentType.news, trendingRank := 1 }

/-- The bucket the importer builds when fetchSubNone yields nothing and the
all-time fetch yields only zPostC7. -/
def bucketC8 : DayData :=
  { date := "2025-03-01", events := [zPostC7], hasViralContent := true,
    topHashtag := none }

/-- A daily_viral_summaries row flagged as having viral content. -/
def rowC8 : SummaryRow :=
  { date := "2025-01-01", has_viral_content := true, top_hashtag := some "#x" }

/-- A historical bucket and a mock bucket on the same date, plus a second
date present only in the mock table, for the fallback witnesses. -/
def bucketHist : DayData :=
  { date := "2025-01-01"
    events := [{ id := "h1", title := "hist", summary := "", postCount := 10,
                 hashtag := some "#h", type := ContentType.news, trendingRank := 1 }]
    hasViralContent := true
    topHashtag := some "#h" }

/-- The mock bucket competing with bucketHist on the same date. -/
def bucketMock : DayData :=
  { date := "2025-01-01"
    events := [{ id := "m1", title := "mock", summary := "", postCount := 20,
                 hashtag := some "#m", type := ContentType.meme, trendingRank := 1 }]
    hasViralContent := true
    topHashtag := some "#m" }

/-- A mock bucket on a date absent from the caches. -/
def bucketMock2 : DayData :=
  { date := "2025-01-02"
    events := [{ id := "m2", title := "mock2", summary := "", postCount := 30,
                 hashtag := some "#m2", type := ContentType.video, trendingRank := 1 }]
    hasViralContent := true
    topHashtag := some "#m2" }

/-! ### Lemmas about the stable sort -/

theorem insertLe_perm (le : α → α → Bool) (a : α) (t : List α) :
    (insertLe le a t).Perm (a :: t) := by
  induction t with
  | nil => simp [insertLe]
  | cons b t2 ih =>
    simp only [insertLe]
    by_cases h : le a b = true
    · simp [h]
    · simp only [h, if_false]
      exact (ih.cons b).trans (List.Perm.swap a b t2)

theorem sortLe_perm (le : α → α → Bool) (l : List α) : (sortLe le l).Perm l := by
  induction l with
  | nil => simp [sortLe]
  | cons x xs ih =>
    simpa [sortLe] using (insertLe_perm le x (sortLe le xs)).trans (ih.cons x)

theorem insertLe_pairwise (le : α → α → Bool)
    (htrans : ∀ a b c, le a b = true → le b c = true → le a c = true)
    (htotal : ∀ a b, le a b = true ∨ le b a = true)
    (a : α) (t : List α) (h : t.Pairwise (fun x y => le x y = true)) :
    (insertLe le a t).Pairwise (fun x y => le x y = true) := by
  induction t with
  | nil => simp [insertLe]
  | cons b t2 ih =>
    rw [List.pairwise_cons] at h
    simp only [insertLe]
    by_cases hab : le a b = true
    · rw [if_pos hab]
      rw [List.pairwise_cons]
      constructor
      · intro y hy
        rcases List.mem_cons.mp hy with rfl | hy2
        · exact hab
        · exact htrans a b y hab (h.1 y hy2)
      · rw [List.pairwise_cons]; exact h
    · rw [if_neg hab]
      rw [List.pairwise_cons]
      constructor
      · intro y hy
        rcases (insertLe_perm le a t2).mem_iff.mp hy with hmem
        rcases List.mem_cons.mp hmem with rfl | hy2
        · rcases htotal y b with hyb | hby
          · exact absurd hyb hab
          · exact hby
        · exact h.1 y hy2
      · exact ih h.2

theorem sortLe_pairwise (le : α → α → Bool)
    (htrans : ∀ a b c, le a b = true → le b c = true → le a c = true)
    (htotal : ∀ a b, le a b = true ∨ le b a = true)
    (l : List α) : (sortLe le l).Pairwise (fun x y => le x y = true) := by
  induction l with
  | nil => simp [sortLe]
  | cons x xs ih => exact insertLe_pairwise le htrans htotal x _ ih

theorem filter_insertLe (le : α → α → Bool) (p : α → Bool)
    (hco : ∀ x y, p x = true → p y = true → le x y = true) (a : α) (t : List α) :
    (insertLe le a t).filter p = if p a then a :: t.filter p else t.filter p := by
  induction t with
  | nil => simp [insertLe, List.filter_cons]
  | cons b t2 ih =>
    simp only [insertLe]
    by_cases hab : le a b = true
    · rw [if_pos hab]
      simp [List.filter_cons]
    · rw [if_neg hab]
      rw [List.filter_cons, List.filter_cons, ih]
      by_cases hpa : p a = true
      · have hpb : ¬ p b = true := fun hpb => hab (hco a b hpa hpb)
        simp [hpa, hpb]
      · by_cases hpb : p b = true
        · simp [hpa, hpb]
        · simp [hpa, hpb]

theorem filter_sortLe (le : α → α → Bool) (p : α → Bool)
    (hco : ∀ x y, p x = true → p y = true → le x y = true) (l : List α) :
    (sortLe le l).filter p = l.filter p := by
  induction l with
  | nil => simp [sortLe]
  | cons x xs ih =>
    simp only [sortLe, filter_insertLe le p hco, ih, List.filter_cons]

theorem lePostDesc_trans (a b c : ViralEvent) (h1 : lePostDesc a b = true)
    (h2 : lePostDesc b c = true) : lePostDesc a c = true := by
  simp only [lePostDesc, decide_eq_true_eq] at h1 h2 ⊢
  omega

theorem lePostDesc_total (a b : ViralEvent) :
    lePostDesc a b = true ∨ lePostDesc b a = true := by
  simp only [lePostDesc, decide_eq_true_eq]
  omega

theorem leRankAsc_trans (a b c : ViralEvent) (h1 : leRankAsc a b = true)
    (h2 : leRankAsc b c = true) : leRankAsc a c = true := by
  simp only [leRankAsc, decide_eq_true_eq] at h1 h2 ⊢
  omega

theorem leRankAsc_total (a b : ViralEvent) :
    leRankAsc a b = true ∨ leRankAsc b a = true := by
  simp only [leRankAsc, decide_eq_true_eq]
  omega

/-! ### Lemmas about the date-keyed object operations -/

theorem recLookup_recInsert_self (m : DayMap) (k : String) (v : DayData) :
    recLookup (recInsert m k v) k = some v := by
  induction m with
  | nil => simp [recInsert, recLookup]
  | cons kv rest ih =>
    obtain ⟨k2, v2⟩ := kv
    by_cases h : k2 = k
    · simp [recInsert, h, recLookup]
    · simp [recInsert, h, recLookup, ih]

theorem recLookup_recInsert_ne (m : DayMap) (k k2 : String) (v : DayData)
    (h : k2 ≠ k) : recLookup (recInsert m k v) k2 = recLookup m k2 := by
  induction m with
  | nil =>
    simp only [recInsert, recLookup]
    rw [if_neg (fun hh => h hh.symm)]
  | cons kv rest ih =>
    obtain ⟨k3, v3⟩ := kv
    by_cases h3 : k3 = k
    · subst h3
      simp only [recInsert, if_pos rfl, recLookup]
      rw [if_neg (fun hh => h hh.symm), if_neg (fun hh => h hh.symm)]
    · simp only [recInsert, if_neg h3, recLookup]
      by_cases h32 : k3 = k2
      · simp [h32]
      · simp [h32, ih]

theorem mem_recInsert (m : DayMap) (k : String) (v : DayData)
    (kv : String × DayData) (hm : kv ∈ recInsert m k v) : kv ∈ m ∨ kv = (k, v) := by
  induction m with
  | nil =>
    simp only [recInsert, List.mem_singleton] at hm
    right; exact hm
  | cons kv2 rest ih =>
    obtain ⟨k2, v2⟩ := kv2
    by_cases h : k2 = k
    · simp only [recInsert, if_pos h, List.mem_cons] at hm
      rcases hm with h1 | h1
      · right; exact h1
      · left; exact List.mem_cons_of_mem _ h1
    · simp only [recInsert, if_neg h, List.mem_cons] at hm
      rcases hm with h1 | h1
      · left; simp [h1]
      · rcases ih h1 with h2 | h2
        · left; exact List.mem_cons_of_mem _ h2
        · right; exact h2

/-! ### Lemmas about rank assignment -/

theorem enumFrom_map_rank (n : Nat) (l : List ViralEvent) :
    ((List.enumFrom n l).map (fun ie => { ie.2 with trendingRank := ie.1 + 1 })).map
        (fun e => e.trendingRank) = List.range' (n + 1) l.length := by
  induction l generalizing n with
  | nil => simp
  | cons a t ih =>
    rw [List.enumFrom_cons]
    simp only [List.map_cons, List.length_cons]
    rw [List.range'_succ]
    simp [ih]

theorem assignRanks_map_rank (l : List ViralEvent) :
    (assignRanks l).map (fun e => e.trendingRank) = List.range' 1 l.length := by
  have h := enumFrom_map_rank 0 l
  simpa [assignRanks, List.enum] using h

theorem enumFrom_map_postCount (n : Nat) (l : List ViralEvent) :
    ((List.enumFrom n l).map (fun ie => { ie.2 with trendingRank := ie.1 + 1 })).map
        (fun e => e.postCount) = l.map (fun e => e.postCount) := by
  induction l generalizing n with
  | nil => simp
  | cons a t ih =>
    rw [List.enumFrom_cons]
    simp [ih]

theorem assignRanks_map_postCount (l : List ViralEvent) :
    (assignRanks l).map (fun e => e.postCount) = l.map (fun e => e.postCount) := by
  have h := enumFrom_map_postCount 0 l
  simpa [assignRanks, List.enum] using h

theorem length_assignRanks (l : List ViralEvent) :
    (assignRanks l).length = l.length := by
  simp [assignRanks]

theorem rank_pos_of_mem_assignRanks (l : List ViralEvent) (e : ViralEvent)
    (h : e ∈ assignRanks l) : 1 ≤ e.trendingRank := by
  have hmem : e.trendingRank ∈ (assignRanks l).map (fun e => e.trendingRank) :=
    List.mem_map_of_mem _ h
  rw [assignRanks_map_rank] at hmem
  exact (List.mem_range'_1.mp hmem).1

theorem assignRanks_cons (e0 : ViralEvent) (t : List ViralEvent) :
    assignRanks (e0 :: t) =
      { e0 with trendingRank := 1 } ::
        (List.enumFrom 1 t).map (fun ie => { ie.2 with trendingRank := ie.1 + 1 }) := by
  simp [assignRanks, List.enum_cons]

/-! ### Lemmas about the descending-order predicate -/

theorem descInts_of_pairwise (l : List Int)
    (h : l.Pairwise (fun a b => b ≤ a)) : descInts l = true := by
  induction l with
  | nil => rfl
  | cons a t ih =>
    cases t with
    | nil => rfl
    | cons b t2 =>
      rw [List.pairwise_cons] at h
      have hba : b ≤ a := h.1 b (List.mem_cons_self b t2)
      simp only [descInts, Bool.and_eq_true, decide_eq_true_eq]
      exact ⟨hba, ih h.2⟩

/-! ### Lemmas about the importer accumulation -/

theorem eventsToday_processPost (today : String) (m : DayMap) (p : ViralEvent) :
    eventsToday (processPost today m p) today = eventsToday m today ∨
      eventsToday (processPost today m p) today = eventsToday m today ++ [p] := by
  simp only [processPost, eventsToday]
  rw [recLookup_recInsert_self]
  cases hlk : recLookup m today with
  | none =>
    simp only [hlk, Option.getD_none, Option.getD_some, emptyDayData]
    by_cases hdup : (emptyDayData today).events.any (fun e => e.id == p.id) = true
    · simp [emptyDayData] at hdup
    · simp [emptyDayData, hdup]
  | some d =>
    simp only [hlk, Option.getD_some]
    by_cases hdup : d.events.any (fun e => e.id == p.id) = true
    · simp [hdup]
    · simp [hdup]

theorem mem_eventsToday_processPost (today : String) (m : DayMap) (p e : ViralEvent)
    (h : e ∈ eventsToday m today) : e ∈ eventsToday (processPost today m p) today := by
  rcases eventsToday_processPost today m p with heq | heq
  · rw [heq]; exact h
  · rw [heq]; exact List.mem_append_left _ h

theorem mem_eventsToday_processPosts (today : String) (m : DayMap)
    (posts : List ViralEvent) (e : ViralEvent) (h : e ∈ eventsToday m today) :
    e ∈ eventsToday (processPosts today m posts) today := by
  induction posts generalizing m with
  | nil => exact h
  | cons p rest ih =>
    exact ih (processPost today m p) (mem_eventsToday_processPost today m p e h)

theorem mem_eventsToday_processPost_src (today : String) (m : DayMap)
    (p e : ViralEvent) (h : e ∈ eventsToday (processPost today m p) today) :
    e ∈ eventsToday m today ∨ e = p := by
  rcases eventsToday_processPost today m p with heq | heq
  · rw [heq] at h; exact Or.inl h
  · rw [heq] at h
    rcases List.mem_append.mp h with h1 | h1
    · exact Or.inl h1
    · right; exact List.mem_singleton.mp h1

theorem mem_eventsToday_processPosts_src (today : String) (m : DayMap)
    (posts : List ViralEvent) (e : ViralEvent)
    (h : e ∈ eventsToday (processPosts today m posts) today) :
    e ∈ eventsToday m today ∨ e ∈ posts := by
  induction posts generalizing m with
  | nil => exact Or.inl h
  | cons p rest ih =>
    rcases ih (processPost today m p) h with h1 | h1
    · rcases mem_eventsToday_processPost_src today m p e h1 with h2 | h2
      · exact Or.inl h2
      · right; rw [h2]; exact List.mem_cons_self p rest
    · right; exact List.mem_cons_of_mem p h1

/-- The single-key invariant of the importer accumulator: every entry of the
map is keyed by `today`, and there is at most one. -/
def singleKey (today : String) (m : DayMap) : Prop :=
  m = [] ∨ ∃ d, m = [(today, d)]

theorem singleKey_processPost (today : String) (m : DayMap) (p : ViralEvent)
    (h : singleKey today m) : singleKey today (processPost today m p) := by
  rcases h with rfl | ⟨d, rfl⟩
  · right
    exact ⟨_, rfl⟩
  · right
    simp only [processPost, recInsert, if_pos rfl]
    exact ⟨_, rfl⟩

theorem singleKey_processPosts (today : String) (m : DayMap)
    (posts : List ViralEvent) (h : singleKey today m) :
    singleKey today (processPosts today m posts) := by
  induction posts generalizing m with
  | nil => exact h
  | cons p rest ih => exact ih _ (singleKey_processPost today m p h)

theorem singleKey_runSubreddits (fetchSub : String → Timeframe → List ViralEvent)
    (today : String) (minScore : Int) (maxPosts : Nat) (tf : Timeframe)
    (subs : List String) (st : ImportState) (h : singleKey today st.acc) :
    singleKey today (runSubreddits fetchSub today minScore maxPosts tf subs st).acc := by
  induction subs generalizing st with
  | nil => exact h
  | cons sub rest ih =>
    simp only [runSubreddits]
    by_cases hc : maxPosts ≤ st.total + ((fetchSub sub tf).filter
        (fun p => decide (minScore ≤ p.postCount))).length
    · rw [if_pos hc]
      exact singleKey_processPosts today st.acc _ h
    · rw [if_neg hc]
      exact ih _ (singleKey_processPosts today st.acc _ h)

theorem singleKey_runTimeframes (fetchSub : String → Timeframe → List ViralEvent)
    (today : String) (minScore : Int) (maxPosts : Nat) (subs : List String)
    (tfs : List Timeframe) (st : ImportState) (h : singleKey today st.acc) :
    singleKey today (runTimeframes fetchSub today minScore maxPosts subs tfs st).acc := by
  induction tfs generalizing st with
  | nil => exact h
  | cons tf rest ih =>
    simp only [runTimeframes]
    by_cases hc : maxPosts ≤ st.total
    · rw [if_pos hc]; exact h
    · rw [if_neg hc]
      exact ih _ (singleKey_runSubreddits fetchSub today minScore maxPosts tf subs st h)

theorem singleKey_importHistoricalData (fetchSub : String → Timeframe → List ViralEvent)
    (fetchAllTime : List ViralEvent) (today : String) (minScore : Int)
    (maxPosts : Nat) (subreddits : List String) (timeframes : List Timeframe) :
    singleKey today (importHistoricalData fetchSub fetchAllTime today minScore
      maxPosts subreddits timeframes).acc := by
  simp only [importHistoricalData, importMainLoop]
  apply singleKey_processPosts
  apply singleKey_runTimeframes
  exact Or.inl rfl

/-! ### Lemmas about deduplication -/

theorem removeDupAux_append (seen : List String) (l1 l2 : List ViralEvent) :
    removeDupAux seen (l1 ++ l2) =
      removeDupAux seen l1 ++ removeDupAux (seenAfter seen l1) l2 := by
  induction l1 generalizing seen with
  | nil => simp [removeDupAux, seenAfter]
  | cons e t ih =>
    simp only [List.cons_append, removeDupAux, seenAfter]
    by_cases h : normTitleKey e.title ∈ seen
    · simp [h, ih]
    · simp [h, ih]

theorem mem_seenAfter_of_mem (seen : List String) (l : List ViralEvent) (k : String)
    (h : k ∈ seen) : k ∈ seenAfter seen l := by
  induction l generalizing seen with
  | nil => exact h
  | cons e t ih =>
    simp only [seenAfter]
    by_cases hc : normTitleKey e.title ∈ seen
    · rw [if_pos (List.elem_eq_true_of_mem hc)]
      exact ih seen h
    · rw [if_neg (fun hcc => hc (List.mem_of_elem_eq_true hcc))]
      exact ih _ (List.mem_cons_of_mem _ h)

theorem mem_seenAfter (seen : List String) (l : List ViralEvent) :
    ∀ e ∈ l, normTitleKey e.title ∈ seenAfter seen l := by
  induction l generalizing seen with
  | nil => intro e he; exact absurd he (List.not_mem_nil e)
  | cons f t ih =>
    intro e he
    simp only [seenAfter]
    by_cases hc : normTitleKey f.title ∈ seen
    · rw [if_pos (List.elem_eq_true_of_mem hc)]
      rcases List.mem_cons.mp he with rfl | he2
      · exact mem_seenAfter_of_mem seen t _ hc
      · exact ih seen e he2
    · rw [if_neg (fun hcc => hc (List.mem_of_elem_eq_true hcc))]
      rcases List.mem_cons.mp he with rfl | he2
      · exact mem_seenAfter_of_mem _ t _ (List.mem_cons_self _ seen)
      · exact ih _ e he2

theorem removeDupAux_eq_nil (seen : List String) (l : List ViralEvent)
    (h : ∀ e ∈ l, normTitleKey e.title ∈ seen) :
    removeDupAux seen l = [] := by
  induction l with
  | nil => rfl
  | cons e t ih =>
    have he : normTitleKey e.title ∈ seen := h e (List.mem_cons_self e t)
    simp only [removeDupAux]
    rw [if_pos (List.elem_eq_true_of_mem he)]
    exact ih (fun e2 he2 => h e2 (List.mem_cons_of_mem e he2))

theorem recLookup_eq_none_of_not_mem (m : DayMap) (k : String)
    (h : k ∉ m.map Prod.fst) : recLookup m k = none := by
  induction m with
  | nil => rfl
  | cons kv rest ih =>
    obtain ⟨k1, v1⟩ := kv
    simp only [List.map_cons, List.mem_cons, not_or] at h
    simp only [recLookup]
    rw [if_neg (fun hh => h.1 hh.symm)]
    exact ih h.2

theorem saveToStorage_cons (existingData : DayMap) (k1 : String) (v1 : DayData)
    (rest : DayMap) :
    saveToStorage existingData ((k1, v1) :: rest) =
      saveToStorage (recInsert existingData k1 v1) rest := rfl

/-! ### Claim theorems -/

/-- C6 (confirmed): deduplication by normalized title is idempotent — for
every event list, deduplicating the concatenation of the list with itself
yields exactly the deduplication of the list once. -/
theorem removeDuplicates_idempotent (l : List ViralEvent) :
    removeDuplicates (l ++ l) = removeDuplicates l := by
  unfold removeDuplicates
  rw [removeDupAux_append]
  rw [removeDupAux_eq_nil (seenAfter [] l) l (mem_seenAfter [] l)]
  simp

/-- C4 (confirmed): with two sources returning event a (title "Breaking News
Today", postCount 500) and event b (title "breaking news today!!", postCount
300) and minScore 100, the aggregator bucket contains exactly event a — the
first occurrence under the normalized-title key wins — with trendingRank 1,
with hasViralContent set and a's hashtag on top. -/
theorem aggregator_dedup_scenario :
    fetchViralContentBucket [evA4, evB4] "2025-05-01" true 100 100 =
      { date := "2025-05-01", events := [evA4], hasViralContent := true,
        topHashtag := some "#x" } := by
  decide

/-- C3 (confirmed): in the fallback read paths (getDayData of
useRedditData.ts, getDayDataSync of useSupabaseData.ts), a date served by
no higher layer resolves to the mock entry, and a date present in the
locally cached historical import resolves to the historical entry even when
the mock table also has that date — local cache takes precedence over
mock. -/
theorem fallback_local_over_mock (liveData historicalData localData mockData : DayMap)
    (dateStr : String) :
    (recLookup liveData dateStr = none → recLookup historicalData dateStr = none →
      getDayData liveData historicalData mockData dateStr = recLookup mockData dateStr) ∧
    (∀ d, recLookup liveData dateStr = none → recLookup historicalData dateStr = some d →
      getDayData liveData historicalData mockData dateStr = some d) ∧
    (recLookup historicalData dateStr = none → recLookup localData dateStr = none →
      getDayDataSync historicalData localData mockData dateStr = recLookup mockData dateStr) ∧
    (∀ d, recLookup historicalData dateStr = some d →
      getDayDataSync historicalData localData mockData dateStr = some d) := by
  refine ⟨?_, ?_, ?_, ?_⟩ <;> (intros; simp_all [getDayData, getDayDataSync])

/-- Witness for C3: with the historical cache and the mock table holding
different buckets for 2025-01-01 the historical one is returned, and a date
present only in the mock table is served from the mock table. -/
theorem fallback_local_over_mock_witness :
    getDayData [] [("2025-01-01", bucketHist)] [("2025-01-01", bucketMock)]
        "2025-01-01" = some bucketHist ∧
    getDayData [] [] [("2025-01-02", bucketMock2)] "2025-01-02" =
      recLookup [("2025-01-02", bucketMock2)] "2025-01-02" ∧
    getDayDataSync [("2025-01-01", bucketHist)] [] [("2025-01-01", bucketMock)]
        "2025-01-01" = some bucketHist :=
  ⟨(fallback_local_over_mock [] [("2025-01-01", bucketHist)] []
      [("2025-01-01", bucketMock)] "2025-01-01").2.1 bucketHist rfl (by decide),
   (fallback_local_over_mock [] [] [] [("2025-01-02", bucketMock2)]
      "2025-01-02").1 rfl rfl,
   (fallback_local_over_mock [] [("2025-01-01", bucketHist)] []
      [("2025-01-01", bucketMock)] "2025-01-01").2.2.2 bucketHist (by decide)⟩

/-- C9 (confirmed): saveToStorage's merge of the new date-keyed map into the
previously cached one replaces, for every date present in the new map, the
stored bucket wholesale with the new map's bucket, and leaves every other
date's stored entry unchanged. -/
theorem saveToStorage_merge (existingData data : DayMap)
    (hnd : (data.map Prod.fst).Nodup) (k : String) :
    (∀ v, recLookup data k = some v →
        recLookup (saveToStorage existingData data) k = some v) ∧
    (recLookup data k = none →
        recLookup (saveToStorage existingData data) k = recLookup existingData k) := by
  induction data generalizing existingData with
  | nil =>
    constructor
    · intro v hv; cases hv
    · intro; rfl
  | cons kv rest ih =>
    obtain ⟨k1, v1⟩ := kv
    simp only [List.map_cons, List.nodup_cons] at hnd
    obtain ⟨hk1, hrest⟩ := hnd
    rw [saveToStorage_cons]
    constructor
    · intro v hv
      simp only [recLookup] at hv
      by_cases h1 : k1 = k
      · subst h1
        rw [if_pos rfl] at hv
        injection hv with hv
        subst hv
        have hnone : recLookup rest k1 = none :=
          recLookup_eq_none_of_not_mem rest k1 hk1
        rw [(ih (recInsert existingData k1 v1) hrest).2 hnone]
        exact recLookup_recInsert_self existingData k1 v1
      · rw [if_neg h1] at hv
        exact (ih (recInsert existingData k1 v1) hrest).1 v hv
    · intro hv
      simp only [recLookup] at hv
      by_cases h1 : k1 = k
      · subst h1
        rw [if_pos rfl] at hv
        cases hv
      · rw [if_neg h1] at hv
        rw [(ih (recInsert existingData k1 v1) hrest).2 hv]
        exact recLookup_recInsert_ne existingData k1 k v1 (fun hh => h1 hh.symm)

/-- Witness for C9: merging a one-date map over a two-date cache replaces
the bucket of the shared date and keeps the other date's bucket. -/
theorem saveToStorage_merge_witness :
    recLookup (saveToStorage [("2025-01-01", bucketMock), ("2025-01-02", bucketMock2)]
        [("2025-01-01", bucketHist)]) "2025-01-01" = some bucketHist ∧
    recLookup (saveToStorage [("2025-01-01", bucketMock), ("2025-01-02", bucketMock2)]
        [("2025-01-01", bucketHist)]) "2025-01-02" =
      recLookup [("2025-01-01", bucketMock), ("2025-01-02", bucketMock2)] "2025-01-02" :=
  ⟨(saveToStorage_merge [("2025-01-01", bucketMock), ("2025-01-02", bucketMock2)]
      [("2025-01-01", bucketHist)] (by simp) "2025-01-01").1 bucketHist (by decide),
   (saveToStorage_merge [("2025-01-01", bucketMock), ("2025-01-02", bucketMock2)]
      [("2025-01-01", bucketHist)] (by simp) "2025-01-02").2 (by decide)⟩

/-- C10 (confirmed): every accumulated event is keyed under the date current
when it is processed; a run that completes within a single calendar day
(modelled by the single `today` value the clock yields throughout) returns a
map with at most one date key, the fetch date, however many subreddits and
timeframes were iterated. -/
theorem import_single_date_key (fetchSub : String → Timeframe → List ViralEvent)
    (fetchAllTime : List ViralEvent) (today : String) (minScore : Int)
    (maxPosts : Nat) (subreddits : List String) (timeframes : List Timeframe) :
    (importHistoricalData fetchSub fetchAllTime today minScore maxPosts
        subreddits timeframes).acc.length ≤ 1 ∧
    (importHistoricalData fetchSub fetchAllTime today minScore maxPosts
        subreddits timeframes).acc.all (fun kv => kv.1 == today) = true := by
  rcases singleKey_importHistoricalData fetchSub fetchAllTime today minScore
      maxPosts subreddits timeframes with h | ⟨d, h⟩
  · rw [h]; exact ⟨by simp, by simp⟩
  · rw [h]; exact ⟨by simp, by simp⟩

/-- C7 (confirmed): the post-loop broader r/all fetch is filtered with the
stricter threshold `minScore * 2` and merged through the same processPosts
procedure as the main loop, so every event of the final accumulator that
the main loop had not already accumulated has postCount at least
`minScore * 2`. -/
theorem import_allTime_stricter (fetchSub : String → Timeframe → List ViralEvent)
    (fetchAllTime : List ViralEvent) (today : String) (minScore : Int)
    (maxPosts : Nat) (subreddits : List String) (timeframes : List Timeframe) :
    (importHistoricalData fetchSub fetchAllTime today minScore maxPosts
        subreddits timeframes).acc =
      processPosts today
        (importMainLoop fetchSub today minScore maxPosts subreddits timeframes).acc
        (fetchAllTime.filter (fun p => decide (minScore * 2 ≤ p.postCount))) ∧
    (∀ e : ViralEvent,
      e ∈ eventsToday (importHistoricalData fetchSub fetchAllTime today minScore maxPosts
        subreddits timeframes).acc today →
      e ∈ eventsToday (importMainLoop fetchSub today minScore maxPosts
        subreddits timeframes).acc today ∨ minScore * 2 ≤ e.postCount) := by
  constructor
  · rfl
  · intro e he
    have he2 : e ∈ eventsToday (processPosts today
        (importMainLoop fetchSub today minScore maxPosts subreddits timeframes).acc
        (fetchAllTime.filter (fun p => decide (minScore * 2 ≤ p.postCount)))) today := he
    rcases mem_eventsToday_processPosts_src today _ _ e he2 with h1 | h1
    · exact Or.inl h1
    · have hp := (List.mem_filter.mp h1).2
      simp only [decide_eq_true_eq] at hp
      exact Or.inr hp

/-- Witness for C7: with no subreddit results and a single all-time post of
score 500 against minScore 100, the post is merged into the final
accumulator and satisfies the stricter threshold. -/
theorem import_allTime_stricter_witness :
    zPostC7 ∈ eventsToday (importHistoricalData fetchSubNone [zPostC7] "2025-03-01"
      100 1 ["x", "y"] [Timeframe.day]).acc "2025-03-01" ∧
    (zPostC7 ∈ eventsToday (importMainLoop fetchSubNone "2025-03-01" 100 1
        ["x", "y"] [Timeframe.day]).acc "2025-03-01" ∨
      (100 : Int) * 2 ≤ zPostC7.postCount) :=
  ⟨by decide,
   (import_allTime_stricter fetchSubNone [zPostC7] "2025-03-01" 100 1
      ["x", "y"] [Timeframe.day]).2 zPostC7 (by decide)⟩

/-- C5 (confirmed): with subreddits ["x", "y"], timeframes [day], and
maxPosts 1, when subreddit x returns the five posts xPostsC5 (all passing
the minScore 100 filter), the subreddit loop breaks after x — subreddit y
is never fetched, whatever it would return — and all five qualifying posts
are accumulated: the maxPosts cap is approximate and overshoots. -/
theorem import_maxPosts_overshoot (fetchSub : String → Timeframe → List ViralEvent)
    (fetchAllTime : List ViralEvent)
    (hx : fetchSub "x" Timeframe.day = xPostsC5) :
    (importHistoricalData fetchSub fetchAllTime "2025-03-01" 100 1 ["x", "y"]
        [Timeframe.day]).trace = [("x", Timeframe.day)] ∧
    ∀ p ∈ xPostsC5,
      p ∈ eventsToday (importHistoricalData fetchSub fetchAllTime "2025-03-01" 100 1
        ["x", "y"] [Timeframe.day]).acc "2025-03-01" := by
  have hfil : List.filter (fun p => decide ((100 : Int) ≤ p.postCount)) xPostsC5 = xPostsC5 := by
    decide
  have hlen : xPostsC5.length = 5 := rfl
  have hmain : importMainLoop fetchSub "2025-03-01" 100 1 ["x", "y"] [Timeframe.day] =
      { acc := processPosts "2025-03-01" [] xPostsC5, total := 5,
        trace := [("x", Timeframe.day)] } := by
    simp only [importMainLoop, runTimeframes, runSubreddits, hx, hfil, hlen]
    norm_num
  constructor
  · simp only [importHistoricalData, hmain]
  · intro p hp
    have hm5 : eventsToday (processPosts "2025-03-01" [] xPostsC5) "2025-03-01" = xPostsC5 := by
      decide
    have hp5 : p ∈ eventsToday (processPosts "2025-03-01" [] xPostsC5) "2025-03-01" := by
      rw [hm5]; exact hp
    have hacc : (importHistoricalData fetchSub fetchAllTime "2025-03-01" 100 1 ["x", "y"]
        [Timeframe.day]).acc =
        processPosts "2025-03-01" (processPosts "2025-03-01" [] xPostsC5)
          (fetchAllTime.filter (fun q => decide ((100 : Int) * 2 ≤ q.postCount))) := by
      simp only [importHistoricalData, hmain]
    rw [hacc]
    exact mem_eventsToday_processPosts "2025-03-01" _ _ p hp5

/-- Witness for C5: the oracle fetchSubC5 returns the five qualifying posts
for x and a qualifying post for y; the run fetches only x and keeps all five
posts. -/
theorem import_maxPosts_overshoot_witness :
    fetchSubC5 "x" Timeframe.day = xPostsC5 ∧
    ((importHistoricalData fetchSubC5 [] "2025-03-01" 100 1 ["x", "y"]
        [Timeframe.day]).trace = [("x", Timeframe.day)] ∧
     ∀ p ∈ xPostsC5,
       p ∈ eventsToday (importHistoricalData fetchSubC5 [] "2025-03-01" 100 1
         ["x", "y"] [Timeframe.day]).acc "2025-03-01") :=
  ⟨by decide, import_maxPosts_overshoot fetchSubC5 [] (by decide)⟩

theorem topHashtagOk_intro (d : DayData)
    (h0 : d.events = [] → d.topHashtag = none)
    (h1 : ∀ e0 t, d.events = e0 :: t →
      d.topHashtag = e0.hashtag ∧ ∀ e2 ∈ d.events, e0.trendingRank ≤ e2.trendingRank) :
    topHashtagOk d = true := by
  cases hev : d.events with
  | nil =>
    simp only [topHashtagOk, hev, h0 hev]
    rfl
  | cons e0 t =>
    obtain ⟨hh, hall⟩ := h1 e0 t hev
    simp only [topHashtagOk, hev]
    rw [List.any_eq_true]
    refine ⟨e0, List.mem_cons_self e0 t, ?_⟩
    rw [Bool.and_eq_true]
    constructor
    · rw [hh]
      simp
    · rw [List.all_eq_true]
      intro e2 he2
      simp only [decide_eq_true_eq]
      exact hall e2 (hev ▸ he2)

theorem topHashtagOk_agg (allEvents : List ViralEvent) (today : String)
    (newsOnly : Bool) (minScore : Int) (maxResults : Nat) :
    topHashtagOk (fetchViralContentBucket allEvents today newsOnly minScore maxResults) = true := by
  apply topHashtagOk_intro
  · intro hev
    have hev2 : assignRanks ((sortByPostCountDesc (aggPipeline allEvents newsOnly
        minScore)).take maxResults) = [] := hev
    have hs0 : (sortByPostCountDesc (aggPipeline allEvents newsOnly minScore)).take
        maxResults = [] := by
      have hl := length_assignRanks ((sortByPostCountDesc (aggPipeline allEvents newsOnly
        minScore)).take maxResults)
      rw [hev2] at hl
      exact List.length_eq_zero.mp hl.symm
    show ((sortByPostCountDesc (aggPipeline allEvents newsOnly minScore)).take
        maxResults).head?.bind (fun e => e.hashtag) = none
    rw [hs0]
    rfl
  · intro e0 t hev
    have hev2 : assignRanks ((sortByPostCountDesc (aggPipeline allEvents newsOnly
        minScore)).take maxResults) = e0 :: t := hev
    cases hsc : (sortByPostCountDesc (aggPipeline allEvents newsOnly minScore)).take
        maxResults with
    | nil =>
      rw [hsc] at hev2
      simp [assignRanks] at hev2
    | cons a0 s2 =>
      rw [hsc, assignRanks_cons] at hev2
      have h1 : ({ a0 with trendingRank := 1 } : ViralEvent) = e0 := by
        exact (List.cons.injEq _ _ _ _ ▸ hev2).1
      constructor
      · show ((sortByPostCountDesc (aggPipeline allEvents newsOnly minScore)).take
            maxResults).head?.bind (fun e => e.hashtag) = e0.hashtag
        rw [hsc, ← h1]
        rfl
      · intro e2 he2
        rw [← h1]
        show (1 : Nat) ≤ e2.trendingRank
        have he2' : e2 ∈ assignRanks ((sortByPostCountDesc (aggPipeline allEvents newsOnly
            minScore)).take maxResults) := he2
        exact rank_pos_of_mem_assignRanks _ e2 he2'

theorem topHashtagOk_mock (dateStr : String) (events : List ViralEvent) :
    topHashtagOk (createDayData dateStr events) = true := by
  apply topHashtagOk_intro
  · intro hev
    have hev2 : sortLe leRankAsc events = [] := hev
    show (sortLe leRankAsc events).head?.bind (fun e => e.hashtag) = none
    rw [hev2]
    rfl
  · intro e0 t hev
    have hev2 : sortLe leRankAsc events = e0 :: t := hev
    constructor
    · show (sortLe leRankAsc events).head?.bind (fun e => e.hashtag) = e0.hashtag
      rw [hev2]
      rfl
    · intro e2 he2
      have he2' : e2 ∈ sortLe leRankAsc events := he2
      have hpw := sortLe_pairwise leRankAsc leRankAsc_trans leRankAsc_total events
      rw [hev2] at hpw he2'
      rw [List.pairwise_cons] at hpw
      rcases List.mem_cons.mp he2' with rfl | hmem
      · exact Nat.le_refl _
      · have := hpw.1 e2 hmem
        simpa [leRankAsc, decide_eq_true_eq] using this

/-- C1 (corrected, amended): for every DayBucket produced by the aggregator
fetch or by the mock-data construction, topHashtag equals the hashtag of a
highest-ranked (minimal trendingRank) event and is absent when the bucket
has no events.  The historical-import accumulation does not maintain this
invariant: it sets topHashtag to the first accumulated event's hashtag and
overwrites it only when a later event carries trendingRank 1 (see the
counterexample). -/
theorem topHashtag_invariant_amended (allEvents : List ViralEvent) (today : String)
    (newsOnly : Bool) (minScore : Int) (maxResults : Nat) (dateStr : String)
    (events : List ViralEvent) :
    topHashtagOk (fetchViralContentBucket allEvents today newsOnly minScore maxResults) = true ∧
    topHashtagOk (createDayData dateStr events) = true :=
  ⟨topHashtagOk_agg allEvents today newsOnly minScore maxResults,
   topHashtagOk_mock dateStr events⟩

/-- Counterexample to C1 as stated: an importer run over subreddits s1 and
s2 accumulates the rank-3 event (hashtag "#a") from s1 and then the rank-2
event (hashtag "#b") from s2; the bucket keeps topHashtag "#a" although its
highest-ranked event is the rank-2 event with hashtag "#b", so the
topHashtag invariant fails on historical-import accumulation. -/
theorem topHashtag_invariant_counterexample :
    (recLookup (importHistoricalData cFetchC1 [] "2025-03-01" 100 500 ["s1", "s2"]
        [Timeframe.day]).acc "2025-03-01").map topHashtagOk = some false := by
  decide

theorem ranksContiguousDesc_agg (allEvents : List ViralEvent) (today : String)
    (newsOnly : Bool) (minScore : Int) (maxResults : Nat) :
    ranksContiguousDesc (fetchViralContentBucket allEvents today newsOnly minScore
      maxResults) = true := by
  have hev : (fetchViralContentBucket allEvents today newsOnly minScore maxResults).events
      = assignRanks ((sortByPostCountDesc (aggPipeline allEvents newsOnly
        minScore)).take maxResults) := rfl
  unfold ranksContiguousDesc
  rw [Bool.and_eq_true]
  constructor
  · rw [hev, assignRanks_map_rank, length_assignRanks]
    simp
  · rw [hev]
    unfold descByPostCount
    rw [assignRanks_map_postCount]
    apply descInts_of_pairwise
    have hpw := sortLe_pairwise lePostDesc lePostDesc_trans lePostDesc_total
      (aggPipeline allEvents newsOnly minScore)
    have hpw2 := List.Pairwise.sublist
      (List.take_sublist maxResults (sortByPostCountDesc (aggPipeline allEvents newsOnly
        minScore))) hpw
    rw [List.pairwise_map]
    exact hpw2.imp (fun h => by simpa [lePostDesc, decide_eq_true_eq] using h)

/-- C2 (corrected, amended): every DayBucket produced by the aggregator has
trendingRank values forming the contiguous sequence 1..N in descending
postCount order, the sorted order being a permutation of the deduplicated
filtered events that preserves the arrival order of events with equal
postCount (a stable sort).  The remote-store date-range grouping does not
reassign ranks per bucket: it stores 1 + the event's position in the whole
ordered range result, so a bucket's ranks are contiguous from 1 only when
the range holds a single date (see the counterexample). -/
theorem trendingRank_contiguous_amended (allEvents : List ViralEvent) (today : String)
    (newsOnly : Bool) (minScore : Int) (maxResults : Nat) :
    ranksContiguousDesc (fetchViralContentBucket allEvents today newsOnly minScore
      maxResults) = true ∧
    (sortByPostCountDesc (aggPipeline allEvents newsOnly minScore)).Perm
      (aggPipeline allEvents newsOnly minScore) ∧
    (∀ v : Int,
      (sortByPostCountDesc (aggPipeline allEvents newsOnly minScore)).filter
          (fun e => e.postCount == v) =
        (aggPipeline allEvents newsOnly minScore).filter (fun e => e.postCount == v)) ∧
    (fetchViralContentBucket allEvents today newsOnly minScore maxResults).events =
      assignRanks ((sortByPostCountDesc (aggPipeline allEvents newsOnly
        minScore)).take maxResults) := by
  refine ⟨ranksContiguousDesc_agg allEvents today newsOnly minScore maxResults,
    sortLe_perm lePostDesc (aggPipeline allEvents newsOnly minScore), ?_, rfl⟩
  intro v
  apply filter_sortLe
  intro x y hx hy
  have hx2 : x.postCount = v := by simpa using hx
  have hy2 : y.postCount = v := by simpa using hy
  simp [lePostDesc, hx2, hy2]

/-- Counterexample to C2 as stated: grouping two remote rows on consecutive
dates gives the second date a bucket whose single event has trendingRank 2
(its position in the whole range result), not a contiguous 1..N sequence. -/
theorem trendingRank_contiguous_counterexample :
    (recLookup (getByDateRange rowsC2) "2025-01-02").map ranksContiguousDesc =
      some false := by
  decide

theorem recLookup_mem (m : DayMap) (k : String) (v : DayData)
    (h : recLookup m k = some v) : (k, v) ∈ m := by
  induction m with
  | nil => cases h
  | cons kv rest ih =>
    obtain ⟨k2, v2⟩ := kv
    simp only [recLookup] at h
    by_cases h2 : k2 = k
    · subst h2
      rw [if_pos rfl] at h
      injection h with h
      subst h
      exact List.mem_cons_self _ _
    · rw [if_neg h2] at h
      exact List.mem_cons_of_mem _ (ih h)

theorem hasViralContentOk_processPost (today : String) (m : DayMap) (p : ViralEvent)
    (h : ∀ kv ∈ m, hasViralContentOk kv.2 = true) :
    ∀ kv ∈ processPost today m p, hasViralContentOk kv.2 = true := by
  have hd : hasViralContentOk ((recLookup m today).getD (emptyDayData today)) = true := by
    cases hlk : recLookup m today with
    | none => simp [emptyDayData, hasViralContentOk]
    | some d0 => exact h (today, d0) (recLookup_mem m today d0 hlk)
  intro kv hkv
  simp only [processPost] at hkv
  rcases mem_recInsert _ _ _ kv hkv with hm | heq
  · exact h kv hm
  · rw [heq]
    by_cases hdup : ((recLookup m today).getD (emptyDayData today)).events.any
        (fun e => e.id == p.id) = true
    · rw [if_pos hdup]
      exact hd
    · rw [if_neg hdup]
      simp [hasViralContentOk]

theorem hasViralContentOk_processPosts (today : String) (m : DayMap)
    (posts : List ViralEvent) (h : ∀ kv ∈ m, hasViralContentOk kv.2 = true) :
    ∀ kv ∈ processPosts today m posts, hasViralContentOk kv.2 = true := by
  induction posts generalizing m with
  | nil => exact h
  | cons p rest ih => exact ih _ (hasViralContentOk_processPost today m p h)

theorem hasViralContentOk_runSubreddits (fetchSub : String → Timeframe → List ViralEvent)
    (today : String) (minScore : Int) (maxPosts : Nat) (tf : Timeframe)
    (subs : List String) (st : ImportState)
    (h : ∀ kv ∈ st.acc, hasViralContentOk kv.2 = true) :
    ∀ kv ∈ (runSubreddits fetchSub today minScore maxPosts tf subs st).acc,
      hasViralContentOk kv.2 = true := by
  induction subs generalizing st with
  | nil => exact h
  | cons sub rest ih =>
    simp only [runSubreddits]
    by_cases hc : maxPosts ≤ st.total + ((fetchSub sub tf).filter
        (fun p => decide (minScore ≤ p.postCount))).length
    · rw [if_pos hc]
      exact hasViralContentOk_processPosts today st.acc _ h
    · rw [if_neg hc]
      exact ih _ (hasViralContentOk_processPosts today st.acc _ h)

theorem hasViralContentOk_runTimeframes (fetchSub : String → Timeframe → List ViralEvent)
    (today : String) (minScore : Int) (maxPosts : Nat) (subs : List String)
    (tfs : List Timeframe) (st : ImportState)
    (h : ∀ kv ∈ st.acc, hasViralContentOk kv.2 = true) :
    ∀ kv ∈ (runTimeframes fetchSub today minScore maxPosts subs tfs st).acc,
      hasViralContentOk kv.2 = true := by
  induction tfs generalizing st with
  | nil => exact h
  | cons tf rest ih =>
    simp only [runTimeframes]
    by_cases hc : maxPosts ≤ st.total
    · rw [if_pos hc]; exact h
    · rw [if_neg hc]
      exact ih _ (hasViralContentOk_runSubreddits fetchSub today minScore maxPosts tf subs st h)

theorem hasViralContentOk_agg (allEvents : List ViralEvent) (today : String)
    (newsOnly : Bool) (minScore : Int) (maxResults : Nat) :
    hasViralContentOk (fetchViralContentBucket allEvents today newsOnly minScore
      maxResults) = true := by
  show (decide (0 < ((sortByPostCountDesc (aggPipeline allEvents newsOnly
      minScore)).take maxResults).length) ==
    !(assignRanks ((sortByPostCountDesc (aggPipeline allEvents newsOnly
      minScore)).take maxResults)).isEmpty) = true
  cases hsc : (sortByPostCountDesc (aggPipeline allEvents newsOnly minScore)).take
      maxResults with
  | nil => rfl
  | cons a t =>
    rw [assignRanks_cons]
    simp

theorem hasViralContentOk_mock (dateStr : String) (events : List ViralEvent) :
    hasViralContentOk (createDayData dateStr events) = true := by
  show (decide (0 < events.length) == !(sortLe leRankAsc events).isEmpty) = true
  have hlen : (sortLe leRankAsc events).length = events.length :=
    (sortLe_perm leRankAsc events).length_eq
  cases hev : events with
  | nil => rfl
  | cons x xs =>
    rw [hev] at hlen
    cases hs2 : sortLe leRankAsc (x :: xs) with
    | nil =>
      rw [hs2] at hlen
      cases hlen
    | cons b bs =>
      simp

/-- C8 (corrected, amended): for every DayBucket produced by the mock-data
construction, the aggregator, or the importer accumulation, hasViralContent
equals the predicate that the bucket's events list is non-empty.  Buckets
returned by dailySummariesApi.getAll do not satisfy this: they carry
hasViralContent true together with an empty, lazily loaded events list (see
the counterexample). -/
theorem hasViralContent_nonempty_amended (allEvents : List ViralEvent) (today : String)
    (newsOnly : Bool) (minScore : Int) (maxResults : Nat) (dateStr : String)
    (events : List ViralEvent) (fetchSub : String → Timeframe → List ViralEvent)
    (fetchAllTime : List ViralEvent) (today2 : String) (minScore2 : Int)
    (maxPosts : Nat) (subreddits : List String) (timeframes : List Timeframe) :
    hasViralContentOk (fetchViralContentBucket allEvents today newsOnly minScore
      maxResults) = true ∧
    hasViralContentOk (createDayData dateStr events) = true ∧
    ∀ kv ∈ (importHistoricalData fetchSub fetchAllTime today2 minScore2 maxPosts
        subreddits timeframes).acc, hasViralContentOk kv.2 = true := by
  refine ⟨hasViralContentOk_agg allEvents today newsOnly minScore maxResults,
    hasViralContentOk_mock dateStr events, ?_⟩
  simp only [importHistoricalData]
  apply hasViralContentOk_processPosts
  simp only [importMainLoop]
  apply hasViralContentOk_runTimeframes
  intro kv hkv
  exact absurd hkv (List.not_mem_nil kv)

/-- Witness for C8: the bucket the importer accumulates from the single
all-time post is in the returned map, and its hasViralContent flag agrees
with its events being non-empty. -/
theorem hasViralContent_nonempty_amended_witness :
    (("2025-03-01", bucketC8) : String × DayData) ∈
      (importHistoricalData fetchSubNone [zPostC7] "2025-03-01" 100 1 ["x", "y"]
        [Timeframe.day]).acc ∧
    hasViralContentOk bucketC8 = true :=
  ⟨by decide,
   (hasViralContent_nonempty_amended [] "2025-03-01" true 0 0 "2025-03-01" []
      fetchSubNone [zPostC7] "2025-03-01" 100 1 ["x", "y"] [Timeframe.day]).2.2
     ("2025-03-01", bucketC8) (by decide)⟩

/-- Counterexample to C8 as stated: dailySummariesApi.getAll turns a summary
row flagged has_viral_content into a bucket with hasViralContent true and an
empty events list, so the flag does not equal "events non-empty" there. -/
theorem hasViralContent_nonempty_counterexample :
    (recLookup (dailySummariesGetAll [rowC8]) "2025-01-01").map hasViralContentOk =
      some false := by
  decide
